import Mathlib

/-!
Shallow embedding of the admein-vast-generator VAST validator core
(package `validator`, plus the `vast.Version` string type it consumes).

Go maps are modelled as association lists (`List (String × _)`); Go's
mutable result construction is modelled by explicit functional updates.
The XML tokenizer of `encoding/xml` is external to the repository, so the
raw input to `buildNodeTree` is modelled as the stream of tokens the
decoder yields (start element, end element, character data, or a decoder
error).  Network and URL parsing (Go stdlib `net/url`, `net/http`) are
likewise external and appear as function parameters.
-/

/-- `vast.Version` (vast/version.go): a plain version string. -/
abbrev Version := String

/-- Model of Go stdlib `strings.TrimSpace` (external to the repository):
drop leading and trailing whitespace. -/
def trimSpace (s : String) : String :=
  let l := s.data.dropWhile Char.isWhitespace
  String.mk ((l.reverse.dropWhile Char.isWhitespace).reverse)

/-- Model of Go stdlib `strings.ToLower` (external to the repository). -/
def lowerString (s : String) : String :=
  String.mk (s.data.map Char.toLower)

/-- Model of Go stdlib `strings.HasPrefix` for the specific prefix `//`. -/
def hasDoubleSlash (s : String) : Bool :=
  List.isPrefixOf ['/', '/'] s.data

/-- `ResultStatus` with the constants StatusPass / StatusFail / StatusInfo. -/
inductive ResultStatus where
  | pass
  | fail
  | info
deriving DecidableEq, Repr

/-- One XML attribute as produced by the decoder (`xml.Attr`, local name only). -/
structure XAttr where
  name : String
  value : String
deriving DecidableEq, Repr

/-- `genericNode` (parser.go): local name, attributes in document order,
ordered children, accumulated trimmed text content. -/
inductive GenericNode where
  | mk (name : String) (attrs : List XAttr) (children : List GenericNode) (content : String)

def GenericNode.localName : GenericNode → String
  | .mk n _ _ _ => n

def GenericNode.attrs : GenericNode → List XAttr
  | .mk _ a _ _ => a

def GenericNode.children : GenericNode → List GenericNode
  | .mk _ _ c _ => c

def GenericNode.content : GenericNode → String
  | .mk _ _ _ c => c

/-- `genericNode.attrValue` (parser.go:26): scan the attribute list in document
order and return the first attribute whose local name matches. -/
def GenericNode.attrValue (n : GenericNode) (name : String) : Option String :=
  go n.attrs
where
  go : List XAttr → Option String
    | [] => none
    | a :: rest => if a.name = name then some a.value else go rest

/-- The token stream handed to `buildNodeTree` by `xml.Decoder.Token`.
`decodeError` stands for a non-EOF error from the decoder (malformed markup);
EOF is the end of the list. -/
inductive Token where
  | start (name : String) (attrs : List XAttr)
  | «end» (name : String)
  | charData (s : String)
  | decodeError (msg : String)
deriving DecidableEq, Repr

/-- Call-level errors of the validator (parser.go / validator.go). -/
inductive VError where
  | emptyXML
  | parseXML (msg : String)
  | unexpectedClosingTag (name : String)
  | invalidRoot
  | missingVersion
  | catalogMissingVASTSpec
deriving DecidableEq, Repr

/-- A frame of the parser's element stack: an open element together with the
children completed so far (in reverse) and its accumulated content. -/
structure PFrame where
  name : String
  attrsF : List XAttr
  childrenRev : List GenericNode
  content : String

/-- Close a frame into a finished node. -/
def PFrame.close (f : PFrame) : GenericNode :=
  .mk f.name f.attrsF f.childrenRev.reverse f.content

/-- Attach a finished child node to the top frame of the stack; with an empty
stack the node becomes the current root candidate. -/
def attachNode (stack : List PFrame) (root : Option GenericNode) (node : GenericNode) :
    List PFrame × Option GenericNode :=
  match stack with
  | [] => ([], some node)
  | f :: rest => ({ f with childrenRev := node :: f.childrenRev } :: rest, root)

/-- At end of input, close every still-open frame, attaching each to its
parent (this mirrors the Go version, where children are attached to their
mutable parents as soon as they start, so breaking out of the loop at EOF
keeps everything attached). -/
def collapseInto (node : GenericNode) : List PFrame → GenericNode
  | [] => node
  | g :: rest => collapseInto ({ g with childrenRev := node :: g.childrenRev }).close rest

def drainStack : List PFrame → Option GenericNode → Option GenericNode
  | [], root => root
  | f :: rest, _root => some (collapseInto f.close rest)

/-- One step of `buildNodeTree`'s token loop. -/
def buildStep (stack : List PFrame) (root : Option GenericNode) :
    List Token → Except VError GenericNode
  | [] =>
      match drainStack stack root with
      | none => .error .emptyXML
      | some r => .ok r
  | tok :: rest =>
      match tok with
      | .start name attrs =>
          buildStep ({ name := name, attrsF := attrs, childrenRev := [], content := "" } :: stack)
            root rest
      | .«end» name =>
          match stack with
          | [] => .error (.unexpectedClosingTag name)
          | f :: stack' =>
              let (stack'', root') := attachNode stack' root f.close
              buildStep stack'' root' rest
      | .charData s =>
          match stack with
          | [] => buildStep stack root rest
          | f :: stack' =>
              let trimmed := trimSpace s
              if trimmed = "" then buildStep (f :: stack') root rest
              else
                let newContent :=
                  if f.content = "" then trimmed else f.content ++ " " ++ trimmed
                buildStep ({ f with content := newContent } :: stack') root rest
      | .decodeError msg => .error (.parseXML msg)

/-- `buildNodeTree` (parser.go:36): fold the decoder's token stream into a
tree of generic nodes; fails on decoder errors, an unexpected closing tag, or
a document with no element content. -/
def buildNodeTree (tokens : List Token) : Except VError GenericNode :=
  buildStep [] none tokens

/-- `AttributeSpec` (catalog.go): a valid attribute of a node. -/
structure AttributeSpec where
  Name : String
  Versions : List Version
  Required : Bool
  AllowEmpty : Bool
deriving DecidableEq, Repr

/-- `ChildSpec` (catalog.go): a valid parent/child relationship. -/
structure ChildSpec where
  Name : String
  Versions : List Version
  Optional : Bool
  Multiple : Bool
deriving DecidableEq, Repr

/-- `NodeSpec` (catalog.go): validation metadata for one node name.  The Go
maps are association lists here; iteration order over `Attributes` (used for
the required-attribute sweep) is the list order. -/
structure NodeSpec where
  Name : String
  Versions : List Version
  Attributes : List (String × AttributeSpec)
  Children : List (String × ChildSpec)
  AllowUnknownChildren : Bool
deriving DecidableEq, Repr

/-- `Catalog` (catalog.go): node specifications keyed by (case-sensitive) node name. -/
structure Catalog where
  Nodes : List (String × NodeSpec)
deriving DecidableEq, Repr

/-- `Catalog.node` (catalog.go:35): exact-key lookup. -/
def Catalog.node (c : Catalog) (name : String) : Option NodeSpec :=
  (c.Nodes.find? (fun p => p.1 = name)).map (·.2)

/-- `NodeSpec.supports` (catalog.go:43). -/
def NodeSpec.supports (spec : NodeSpec) (version : Version) : Bool :=
  spec.Versions.contains version

/-- `NodeSpec.attribute` (catalog.go:52). -/
def NodeSpec.attribute (spec : NodeSpec) (name : String) : Option AttributeSpec :=
  (spec.Attributes.find? (fun p => p.1 = name)).map (·.2)

/-- `NodeSpec.child` (catalog.go:60). -/
def NodeSpec.child (spec : NodeSpec) (name : String) : Option ChildSpec :=
  (spec.Children.find? (fun p => p.1 = name)).map (·.2)

/-- `ChildSpec.supports` (catalog.go:68). -/
def ChildSpec.supports (spec : ChildSpec) (version : Version) : Bool :=
  spec.Versions.contains version

/-- `AttributeSpec.supports` (catalog.go:77). -/
def AttributeSpec.supports (spec : AttributeSpec) (version : Version) : Bool :=
  spec.Versions.contains version

/-- `IABAnalysisCategory` (custom.go). -/
def IABAnalysisCategory : String := "iab.analysis"

/-- `CustomAnalysisCategory` (custom.go). -/
def CustomAnalysisCategory : String := "custom.analysis"

/-!
Result types as used by validator.go and validator_test.go: the attribute and
node analysis records carry a `Reasons` list (the snapshot of the results
module kept under src/unnamed/part_001 is an earlier revision with a single
`Reason` string; it is embedded separately in the `RS` namespace below for
`summarizeCategories`).
-/

/-- `AttributeResult`: the outcome of validating a single attribute. -/
structure AttributeResult where
  Name : String
  VersionSupport : List Version
  Status : ResultStatus
  Reasons : List String
deriving DecidableEq, Repr

/-- `AttributeResult.addReason`: append one reason string. -/
def AttributeResult.addReason (r : AttributeResult) (msg : String) : AttributeResult :=
  { r with Reasons := r.Reasons ++ [msg] }

/-- `NodeAnalysisResult`: all results for one analysis category on one node. -/
structure NodeAnalysisResult where
  Category : String
  Status : ResultStatus
  Reasons : List String
  Attributes : List AttributeResult
deriving DecidableEq, Repr

/-- `NodeAnalysisResult.addAttribute`: append an attribute result. -/
def NodeAnalysisResult.addAttribute (nar : NodeAnalysisResult) (result : AttributeResult) :
    NodeAnalysisResult :=
  { nar with Attributes := nar.Attributes ++ [result] }

/-- `markFailure` (validator.go:291): flip the bucket to fail and append every
non-empty reason. -/
def markFailure (analysis : NodeAnalysisResult) (reasons : List String) : NodeAnalysisResult :=
  { analysis with
    Status := ResultStatus.fail
    Reasons := analysis.Reasons ++ reasons.filter (fun r => r ≠ "") }

/-- `NodeResult`: per-node validation result; `Analyses` is the Go map from
category name to bucket, modelled as an insertion-ordered association list. -/
inductive NodeResult where
  | mk (node : String) (versionSupport : List Version)
       (analyses : List (String × NodeAnalysisResult)) (children : List NodeResult)

def NodeResult.Node : NodeResult → String
  | .mk n _ _ _ => n

def NodeResult.VersionSupport : NodeResult → List Version
  | .mk _ v _ _ => v

def NodeResult.Analyses : NodeResult → List (String × NodeAnalysisResult)
  | .mk _ _ a _ => a

def NodeResult.Children : NodeResult → List NodeResult
  | .mk _ _ _ c => c

/-- Fresh analysis bucket created by `NodeResult.addAnalysis`. -/
def freshAnalysis (category : String) : NodeAnalysisResult :=
  { Category := category, Status := ResultStatus.pass, Reasons := [], Attributes := [] }

/-- Lookup in an analyses association list. -/
def lookupAnalysis (analyses : List (String × NodeAnalysisResult)) (category : String) :
    Option NodeAnalysisResult :=
  (analyses.find? (fun p => p.1 = category)).map (·.2)

/-- Update the entry for `category`, inserting a fresh bucket first when the
category is absent (the functional counterpart of Go's
`nr.addAnalysis(category)` followed by in-place mutation of the returned
pointer). -/
def updateAnalysis (analyses : List (String × NodeAnalysisResult)) (category : String)
    (f : NodeAnalysisResult → NodeAnalysisResult) : List (String × NodeAnalysisResult) :=
  match analyses with
  | [] => [(category, f (freshAnalysis category))]
  | (c, a) :: rest =>
      if c = category then (c, f a) :: rest
      else (c, a) :: updateAnalysis rest category f

/-- `ValidationResult` (root object returned by `Validate`); the summaries
field is computed by the results module, whose current revision is not under
src/ — the snapshot revision of `summarizeCategories` is embedded separately
below. -/
structure ValidationResult where
  Version : Version
  Root : NodeResult

/-- `NodeContext` (custom.go): context handed to custom validators. -/
structure NodeContext where
  Node : GenericNode
  Version : Version

/-- `NodeContext.Text` (custom.go:27). -/
def NodeContext.Text (ctx : NodeContext) : String :=
  trimSpace ctx.Node.content

/-- `NodeContext.Attribute` (custom.go:35). -/
def NodeContext.Attribute (ctx : NodeContext) (name : String) : Option String :=
  ctx.Node.attrValue name

/-- `NodeValidatorFunc` (custom.go): a synchronous hook; `none` contributes nothing. -/
abbrev NodeValidatorFunc := NodeContext → Option NodeAnalysisResult

/-- `HTTPValidatorFunc` (custom.go): a network hook; the cancellable context
and HTTP client are abstracted into the function value, whose outcome is
either an execution error or an (optional) analysis. -/
abbrev HTTPValidatorFunc := NodeContext → Except String (Option NodeAnalysisResult)

/-- A hook registry (the Go package-level map guarded by a lock, with
registration threaded explicitly). -/
abbrev Registry (f : Type) := List (String × List f)

def Registry.lookup {f : Type} (reg : Registry f) (key : String) : List f :=
  match (List.find? (fun p => p.1 = key) reg).map (fun p => p.2) with
  | none => []
  | some l => l

def Registry.insert {f : Type} (reg : Registry f) (key : String) (v : f) : Registry f :=
  match reg with
  | [] => [(key, [v])]
  | (k, l) :: rest =>
      if k = key then (k, l ++ [v]) :: rest
      else (k, l) :: Registry.insert rest key v

/-- `RegisterCustomValidator` (custom.go:55): key by the lower-cased node
name, append to the key's list. -/
def RegisterCustomValidator (reg : Registry NodeValidatorFunc) (nodeName : String)
    (validato : Option NodeValidatorFunc) : Registry NodeValidatorFunc :=
  match validato with
  | none => reg
  | some f => Registry.insert reg (lowerString nodeName) f

/-- `getCustomValidators` (custom.go:65): lower-cased lookup (the defensive
copy is the identity in a pure model). -/
def getCustomValidators (reg : Registry NodeValidatorFunc) (nodeName : String) :
    List NodeValidatorFunc :=
  Registry.lookup reg (lowerString nodeName)

/-- `RegisterHTTPValidator` (custom.go:78). -/
def RegisterHTTPValidator (reg : Registry HTTPValidatorFunc) (nodeName : String)
    (validato : Option HTTPValidatorFunc) : Registry HTTPValidatorFunc :=
  match validato with
  | none => reg
  | some f => Registry.insert reg (lowerString nodeName) f

/-- `getHTTPValidators` (custom.go:88). -/
def getHTTPValidators (reg : Registry HTTPValidatorFunc) (nodeName : String) :
    List HTTPValidatorFunc :=
  Registry.lookup reg (lowerString nodeName)

/-- `config` (validator.go): per-call configuration.  The two hook registries
are package-level globals in Go; they are threaded through the configuration
here so that validation is a pure function. -/
structure Config where
  catalog : Catalog
  runCustom : Bool
  runHTTP : Bool
  customReg : Registry NodeValidatorFunc
  httpReg : Registry HTTPValidatorFunc

/-- Update one analysis bucket of a node result, inserting a fresh bucket
first when the category is absent (Go's `nr.addAnalysis(cat)` followed by
mutation through the returned pointer). -/
def NodeResult.updateAnalysisAt (nr : NodeResult) (category : String)
    (f : NodeAnalysisResult → NodeAnalysisResult) : NodeResult :=
  .mk nr.Node nr.VersionSupport (updateAnalysis nr.Analyses category f) nr.Children

/-- `mergeAnalysis` (validator.go:276), acting on the analyses map: a new
category is inserted as-is; an existing bucket gets the incoming attribute
results concatenated, and an incoming fail status marks the merged bucket
failed with the incoming reasons. -/
def mergeAnalysis : List (String × NodeAnalysisResult) → NodeAnalysisResult →
    List (String × NodeAnalysisResult)
  | [], analysis => [(analysis.Category, analysis)]
  | (c, existing) :: rest, analysis =>
      if c = analysis.Category then
        let merged := { existing with Attributes := existing.Attributes ++ analysis.Attributes }
        let merged :=
          if analysis.Status = ResultStatus.fail then markFailure merged analysis.Reasons
          else merged
        (c, merged) :: rest
      else (c, existing) :: mergeAnalysis rest analysis

/-- `mergeAnalysis` lifted to a node result. -/
def NodeResult.merge (nr : NodeResult) (analysis : NodeAnalysisResult) : NodeResult :=
  .mk nr.Node nr.VersionSupport (mergeAnalysis nr.Analyses analysis) nr.Children

/-- One iteration of the present-attribute loop of `validateAttributes`
(validator.go:170-211). -/
def validateAttrStep (version : Version) (spec : Option NodeSpec)
    (analysis : NodeAnalysisResult) (attr : XAttr) : NodeAnalysisResult :=
  let attrName := attr.name
  match spec with
  | none =>
      let msg := "node is not recognized; attribute cannot be validated"
      let attributeResult : AttributeResult :=
        { Name := attrName, VersionSupport := [], Status := ResultStatus.fail, Reasons := [msg] }
      markFailure (analysis.addAttribute attributeResult) [msg]
  | some s =>
      match s.attribute attrName with
      | none =>
          let sName := s.Name
          let msg := "attribute " ++ attrName ++ " is not allowed on " ++ sName
          let attributeResult : AttributeResult :=
            { Name := attrName, VersionSupport := [], Status := ResultStatus.fail, Reasons := [msg] }
          markFailure (analysis.addAttribute attributeResult) [msg]
      | some attrSpec =>
          let r0 : AttributeResult :=
            { Name := attrName, VersionSupport := attrSpec.Versions,
              Status := ResultStatus.pass, Reasons := [] }
          let supMsg := "attribute " ++ attrName ++ " is not supported in VAST " ++ version
          let (r1, analysis1) :=
            if attrSpec.supports version then (r0, analysis)
            else ({ r0 with Status := ResultStatus.fail, Reasons := r0.Reasons ++ [supMsg] },
                  markFailure analysis [supMsg])
          let value := trimSpace attr.value
          let emptyMsg := "attribute " ++ attrName ++ " cannot be empty"
          let (r2, analysis2) :=
            if value = "" && !attrSpec.AllowEmpty then
              ({ r1 with Status := ResultStatus.fail, Reasons := r1.Reasons ++ [emptyMsg] },
               markFailure analysis1 [emptyMsg])
            else (r1, analysis1)
          analysis2.addAttribute r2

/-- The required-attribute sweep of `validateAttributes` (validator.go:217-232):
every required attribute of the spec that never occurred on the node yields a
synthetic failing attribute result.  The loop over the spec's attribute table
is explicit recursion over the association list. -/
def requiredSweep (node : GenericNode) :
    List (String × AttributeSpec) → NodeAnalysisResult → NodeAnalysisResult
  | [], analysis => analysis
  | p :: rest, analysis =>
      let attrSpec := p.2
      if !attrSpec.Required then requiredSweep node rest analysis
      else if (node.attrs.map (fun x => x.name)).contains attrSpec.Name then
        requiredSweep node rest analysis
      else
        let missingName := attrSpec.Name
        let msg := "missing required attribute " ++ missingName
        requiredSweep node rest
          (markFailure
            (analysis.addAttribute
              { Name := attrSpec.Name, VersionSupport := attrSpec.Versions,
                Status := ResultStatus.fail, Reasons := [msg] })
            [msg])

/-- `validateAttributes` (validator.go:167): process every attribute present
on the node in order, then (when a spec exists) sweep the spec's required
attributes. -/
def validateAttributes (node : GenericNode) (version : Version) (spec : Option NodeSpec)
    (analysis : NodeAnalysisResult) : NodeAnalysisResult :=
  let afterPresent := node.attrs.foldl (validateAttrStep version spec) analysis
  match spec with
  | none => afterPresent
  | some s => requiredSweep node s.Attributes afterPresent

/-- `applyCustomValidators` (validator.go:235). -/
def applyCustomValidators (reg : Registry NodeValidatorFunc) (nodeResult : NodeResult)
    (node : GenericNode) (version : Version) : NodeResult :=
  (getCustomValidators reg nodeResult.Node).foldl
    (fun nr validato =>
      match validato { Node := node, Version := version } with
      | none => nr
      | some analysis =>
          let analysis :=
            if analysis.Category = "" then { analysis with Category := CustomAnalysisCategory }
            else analysis
          nr.merge analysis)
    nodeResult

/-- `applyHTTPValidators` (validator.go:248); an execution error becomes a
failed bucket in the default custom category (the Go zero-value status of
the freshly allocated bucket is immediately overwritten by `markFailure`). -/
def applyHTTPValidators (reg : Registry HTTPValidatorFunc) (nodeResult : NodeResult)
    (node : GenericNode) (version : Version) : NodeResult :=
  (getHTTPValidators reg nodeResult.Node).foldl
    (fun nr validato =>
      match validato { Node := node, Version := version } with
      | .error e =>
          nr.merge (markFailure (freshAnalysis CustomAnalysisCategory) [e])
      | .ok none => nr
      | .ok (some analysis) =>
          let analysis :=
            if analysis.Category = "" then { analysis with Category := CustomAnalysisCategory }
            else analysis
          nr.merge analysis)
    nodeResult

/-- The structural (spec-compliance) phase of `validateNodeRecursive`
(validator.go:124-140): unrecognized-node check, node-version check, and
parent/child relationship checks on the fresh iab bucket. -/
def iabStructuralPhase (nodeName : String) (version : Version) (spec : Option NodeSpec)
    (parentSpec : Option NodeSpec) (parentAllowsUnknown : Bool) : NodeAnalysisResult :=
  let iab := freshAnalysis IABAnalysisCategory
  match spec with
  | none =>
      if parentAllowsUnknown then iab
      else markFailure iab ["node " ++ nodeName ++ " is not recognized in catalog"]
  | some s =>
      let iab :=
        if s.supports version then iab
        else markFailure iab ["node " ++ nodeName ++ " is not supported in VAST " ++ version]
      match parentSpec with
      | none => iab
      | some ps =>
          if parentAllowsUnknown then iab
          else
            let parentName := ps.Name
            match ps.child nodeName with
            | none => markFailure iab ["node " ++ nodeName ++ " is not a valid child of " ++ parentName]
            | some childSpec =>
                if childSpec.supports version then iab
                else
                  markFailure iab
                    ["node " ++ nodeName ++ " is not allowed for parent " ++ parentName ++ " in VAST " ++ version]

mutual

/-- `validateNodeRecursive` (validator.go:115): build the node's result
(structural checks, attribute checks unless exempt, hook dispatch), then
recurse into the children propagating the allow-unknown permission. -/
def validateNodeRecursive : GenericNode → Version → Config → Option NodeSpec →
    Option NodeSpec → Bool → NodeResult
  | node@(.mk _ _ childNodes _), version, cfg, spec, parentSpec, parentAllowsUnknown =>
    let nodeName := node.localName
    let versionSupport := match spec with | some s => s.Versions | none => []
    let iab := iabStructuralPhase nodeName version spec parentSpec parentAllowsUnknown
    let iab := if parentAllowsUnknown then iab else validateAttributes node version spec iab
    let result := NodeResult.mk nodeName versionSupport [(IABAnalysisCategory, iab)] []
    let result := if cfg.runCustom then applyCustomValidators cfg.customReg result node version
                  else result
    let result := if cfg.runHTTP then applyHTTPValidators cfg.httpReg result node version
                  else result
    let childAllowsUnknown :=
      parentAllowsUnknown || (match spec with | some s => s.AllowUnknownChildren | none => false)
    let children := validateChildren childNodes version cfg spec childAllowsUnknown
    NodeResult.mk result.Node result.VersionSupport result.Analyses children

/-- The child loop of `validateNodeRecursive` (validator.go:158-162). -/
def validateChildren : List GenericNode → Version → Config → Option NodeSpec → Bool →
    List NodeResult
  | [], _, _, _, _ => []
  | child :: rest, version, cfg, spec, childAllowsUnknown =>
      validateNodeRecursive child version cfg (cfg.catalog.node child.localName) spec
          childAllowsUnknown
        :: validateChildren rest version cfg spec childAllowsUnknown

end

/-- `Validate` (validator.go:75): parse, enforce the call-level preconditions
(non-empty input, well-formed markup, VAST root, non-blank version, catalog
entry for VAST), run the traversal, and record an unsupported-version failure
on the root's iab bucket when the declared version is unknown.  Options are
already folded into `cfg`. -/
def Validate (raw : List Token) (cfg : Config) : Except VError ValidationResult :=
  if raw.isEmpty then .error .emptyXML
  else
    match buildNodeTree raw with
    | .error e => .error e
    | .ok root =>
      if root.localName ≠ "VAST" then .error .invalidRoot
      else
        match root.attrValue "version" with
        | none => .error .missingVersion
        | some versionValue =>
          if trimSpace versionValue = "" then .error .missingVersion
          else
            let version : Version := trimSpace versionValue
            match cfg.catalog.node "VAST" with
            | none => .error .catalogMissingVASTSpec
            | some rootSpec =>
              let rootVersionSupported := rootSpec.supports version
              let rootResult := validateNodeRecursive root version cfg (some rootSpec) none false
              let rootResult :=
                if rootVersionSupported then rootResult
                else
                  rootResult.updateAnalysisAt IABAnalysisCategory
                    (fun a => markFailure a ["Unsupported VAST version: " ++ version])
              .ok { Version := version, Root := rootResult }

/-!
Asset probe (http_helpers.go).  Go stdlib `net/url` and `net/http` are
external: URL parsing appears as a `parse` function returning the parsed
URL's scheme, host and rendered string (`URL.String()`), and the HTTP client
as a function from (method, target, extra headers) to a transport error or a
response.
-/

/-- The fields of a parsed `net/url.URL` that http_helpers.go consults,
plus `render`, the value of `parsed.String()`. -/
structure ParsedURL where
  Scheme : String
  Host : String
  render : String
deriving DecidableEq, Repr

/-- A URL-parse function standing for `url.Parse` (`none` = parse error). -/
abbrev URLParser := String → Option ParsedURL

/-- The distinct failures of `normalizeProbeURL` (http_helpers.go:38). -/
inductive ProbeURLError where
  | emptyURL
  | invalidURL (raw : String)
  | missingSchemeOrHost (raw : String)
  | unsupportedScheme (scheme : String)
deriving DecidableEq, Repr

/-- Go error strings of `normalizeProbeURL` (quoting elided). -/
def ProbeURLError.message : ProbeURLError → String
  | .emptyURL => "media URL is empty"
  | .invalidURL raw => "invalid media URL " ++ raw
  | .missingSchemeOrHost raw => "invalid media URL " ++ raw ++ ": missing scheme or host"
  | .unsupportedScheme scheme => "unsupported media URL scheme " ++ scheme

/-- `normalizeProbeURL` (http_helpers.go:38): trim, rewrite a leading `//` to
HTTPS, parse, and reject a missing scheme, a missing host, or a non-HTTP(S)
scheme. -/
def normalizeProbeURL (parse : URLParser) (raw : String) : Except ProbeURLError String :=
  let trimmed := trimSpace raw
  if trimmed = "" then .error .emptyURL
  else
    let trimmed := if hasDoubleSlash trimmed then "https:" ++ trimmed else trimmed
    match parse trimmed with
    | none => .error (.invalidURL raw)
    | some parsed =>
        if parsed.Scheme = "" || parsed.Host = "" then .error (.missingSchemeOrHost raw)
        else if parsed.Scheme ≠ "http" && parsed.Scheme ≠ "https" then
          .error (.unsupportedScheme parsed.Scheme)
        else .ok parsed.render

/-- An HTTP response as consulted by the probe. -/
structure HTTPResponse where
  StatusCode : Nat
  ContentType : String
deriving DecidableEq, Repr

/-- The HTTP client: (method, target, extra headers) to transport error or
response (`doHTTPRequest`, http_helpers.go:59, whose body is stdlib plumbing). -/
abbrev HTTPClient := String → String → List (String × String) → Except String HTTPResponse

/-- `probeRangeHeader` (http_helpers.go:12). -/
def probeRangeHeader : String := "bytes=0-0"

/-- Errors of `probeMediaURL`: a URL-normalization failure or a transport error. -/
inductive ProbeError where
  | urlError (e : ProbeURLError)
  | transport (msg : String)
deriving DecidableEq, Repr

def ProbeError.message : ProbeError → String
  | .urlError e => e.message
  | .transport msg => msg

/-- `probeMediaURL` (http_helpers.go:17): normalize, issue a HEAD request,
and only on a 405 (method not allowed) retry with a `Range: bytes=0-0` GET. -/
def probeMediaURL (parse : URLParser) (client : HTTPClient) (rawURL : String) :
    Except ProbeError HTTPResponse :=
  match normalizeProbeURL parse rawURL with
  | .error e => .error (.urlError e)
  | .ok normalized =>
      match client "HEAD" normalized [] with
      | .ok resp =>
          if resp.StatusCode ≠ 405 then .ok resp
          else
            match client "GET" normalized [("Range", probeRangeHeader)] with
            | .ok resp2 => .ok resp2
            | .error e => .error (.transport e)
      | .error e => .error (.transport e)

/-- `mediaFileHTTPValidator` (parser.go/http_helpers side, registered for
"MediaFile"): probe the node's text content as a URL and compare the declared
`type` attribute with the response content type.  Every path returns an
analysis (the Go function never returns a non-nil error). -/
def mediaFileHTTPValidator (parse : URLParser) (client : HTTPClient)
    (nodeCtx : NodeContext) : NodeAnalysisResult :=
  let url := nodeCtx.Text
  if url = "" then
    { Category := CustomAnalysisCategory, Status := ResultStatus.fail,
      Reasons := ["media file URL is empty"], Attributes := [] }
  else
    match probeMediaURL parse client url with
    | .error err =>
        let m := err.message
        { Category := CustomAnalysisCategory, Status := ResultStatus.fail,
          Reasons := ["media file request failed: " ++ m], Attributes := [] }
    | .ok resp =>
        if resp.StatusCode ≥ 400 then
          let code := resp.StatusCode
          { Category := CustomAnalysisCategory, Status := ResultStatus.fail,
            Reasons := ["media file responded with HTTP " ++ toString code], Attributes := [] }
        else
          let mismatch :=
            match nodeCtx.Attribute "type" with
            | none => none
            | some expected0 =>
                let expected := lowerString (trimSpace expected0)
                if expected = "" then none
                else
                  let actual0 := lowerString (trimSpace resp.ContentType)
                  let actual :=
                    if actual0.data.contains ';' then
                      trimSpace (String.mk (actual0.data.takeWhile (fun c => c ≠ ';')))
                    else actual0
                  if actual ≠ "" && actual ≠ expected then some (expected, actual)
                  else none
          match mismatch with
          | some (expected, actual) =>
              { Category := CustomAnalysisCategory, Status := ResultStatus.fail,
                Reasons := ["content type mismatch: expected " ++ expected ++ ", got " ++ actual],
                Attributes := [] }
          | none =>
              { Category := CustomAnalysisCategory, Status := ResultStatus.pass,
                Reasons := [], Attributes := [] }

/-!
Snapshot of the results module kept at src/unnamed/part_001 (an earlier
revision carrying a single `Reason` string per record); its
`summarizeCategories` is the cited aggregation code.  Embedded verbatim in
its own namespace `RS`.
-/

namespace RS

/-- `AttributeResult` (src/unnamed/part_001). -/
structure AttributeResult where
  Name : String
  VersionSupport : List Version
  Status : ResultStatus
  Reason : String
deriving DecidableEq, Repr

/-- `NodeAnalysisResult` (src/unnamed/part_001). -/
structure NodeAnalysisResult where
  Category : String
  Status : ResultStatus
  Reason : String
  Attributes : List AttributeResult
deriving DecidableEq, Repr

/-- `NodeResult` (src/unnamed/part_001). -/
inductive NodeResult where
  | mk (node : String) (versionSupport : List Version)
       (analyses : List (String × NodeAnalysisResult)) (children : List NodeResult)

def NodeResult.Analyses : NodeResult → List (String × NodeAnalysisResult)
  | .mk _ _ a _ => a

def NodeResult.Children : NodeResult → List NodeResult
  | .mk _ _ _ c => c

/-- `CategorySummary` (src/unnamed/part_001). -/
structure CategorySummary where
  Category : String
  TotalNodes : Nat
  FailingNodes : Nat
  Status : ResultStatus
  Reasons : List String
deriving DecidableEq, Repr

/-- The fresh summary allocated on first contact with a category. -/
def freshSummary (category : String) : CategorySummary :=
  { Category := category, TotalNodes := 0, FailingNodes := 0,
    Status := ResultStatus.pass, Reasons := [] }

/-- The per-analysis update of `summarizeCategories`'s walk: count the node,
and for a failing bucket count the failure, flip the aggregate status, and
record the reason while fewer than 5 reasons are kept. -/
def applyAnalysis (s : CategorySummary) (a : NodeAnalysisResult) : CategorySummary :=
  let s := { s with TotalNodes := s.TotalNodes + 1 }
  if a.Status = ResultStatus.fail then
    let s := { s with FailingNodes := s.FailingNodes + 1, Status := ResultStatus.fail }
    if a.Reason ≠ "" && s.Reasons.length < 5 then { s with Reasons := s.Reasons ++ [a.Reason] }
    else s
  else s

/-- Route one (category, analysis) pair to its summary, allocating it if absent. -/
def updateSummaries (summaries : List (String × CategorySummary))
    (p : String × NodeAnalysisResult) : List (String × CategorySummary) :=
  match summaries with
  | [] => [(p.1, applyAnalysis (freshSummary p.1) p.2)]
  | (c, s) :: rest =>
      if c = p.1 then (c, applyAnalysis s p.2) :: rest
      else (c, s) :: updateSummaries rest p

mutual

/-- The nodes of the result tree in the order `walk` visits them (pre-order). -/
def preorder : NodeResult → List NodeResult
  | n@(.mk _ _ _ childNodes) => n :: preorderList childNodes

def preorderList : List NodeResult → List NodeResult
  | [] => []
  | n :: rest => preorder n ++ preorderList rest

end

/-- `summarizeCategories` (src/unnamed/part_001:74): walk the result tree in
pre-order, folding every node's (category, analysis) pairs into the summary
map. -/
def summarizeCategories (root : NodeResult) : List (String × CategorySummary) :=
  (((preorder root).map NodeResult.Analyses).flatten).foldl updateSummaries []

end RS

/-- The call-level error condition of claim C1: empty input (zero tokens or
no element content), malformed markup, missing VAST catalog entry, wrong
root name, or an absent/blank version attribute. -/
def callLevelErrorCondition (raw : List Token) (cfg : Config) : Prop :=
  raw = [] ∨
    match buildNodeTree raw with
    | .error _ => True
    | .ok root =>
        cfg.catalog.node "VAST" = none ∨
        root.localName ≠ "VAST" ∨
        match root.attrValue "version" with
        | none => True
        | some v => trimSpace v = ""

/-- Concrete witness fixture: a one-entry catalog for the root element. -/
def wVASTSpec : NodeSpec :=
  { Name := "VAST", Versions := ["4.2"],
    Attributes := [("version",
      { Name := "version", Versions := ["4.2"], Required := true, AllowEmpty := false })],
    Children := [("Ad", { Name := "Ad", Versions := ["4.2"], Optional := false, Multiple := true })],
    AllowUnknownChildren := false }

def wCatalog : Catalog := { Nodes := [("VAST", wVASTSpec)] }

def wCfg : Config :=
  { catalog := wCatalog, runCustom := false, runHTTP := false, customReg := [], httpReg := [] }

def wDoc : List Token :=
  [Token.start "VAST" [{ name := "version", value := " 9.9 " }], Token.«end» "VAST"]

def wRoot : GenericNode := .mk "VAST" [{ name := "version", value := " 9.9 " }] [] ""

/-- A node carrying two attributes with the same local name and different
values (possible with namespaced markup: the decoder reports local names). -/
def c6node : GenericNode :=
  .mk "MediaFile" [{ name := "type", value := "a" }, { name := "type", value := "b" }] [] ""

/-- A model of `url.Parse` on the single input of the C7 counterexample:
Go's `url.Parse("http:/path")` yields Scheme "http", empty Host, Path
"/path". -/
def c7parse : URLParser := fun s =>
  if s = "http:/path" then some { Scheme := "http", Host := "", render := "http:/path" }
  else none

/-- A model of `url.Parse` on the C7 witness's schema-relative input. -/
def c7goodparse : URLParser := fun s =>
  if s = "https://h/x" then some { Scheme := "https", Host := "h", render := "https://h/x" }
  else none

/-- C8 scenario fixtures: a server that answers 405 to HEAD and 200 with a
matching content type to the ranged GET. -/
def c8url : String := "http://h/v.mp4"

def c8parse : URLParser := fun s =>
  if s = c8url then some { Scheme := "http", Host := "h", render := c8url } else none

def c8client : HTTPClient := fun method _target headers =>
  if method = "HEAD" then Except.ok { StatusCode := 405, ContentType := "" }
  else if headers = [("Range", probeRangeHeader)] then
    Except.ok { StatusCode := 200, ContentType := "video/mp4" }
  else Except.error "unexpected request"

def c8node : GenericNode :=
  .mk "MediaFile" [{ name := "type", value := "video/mp4" }] [] c8url

mutual

/-- The result nodes of a subtree in document (pre-)order. -/
def resultNodes : NodeResult → List NodeResult
  | r@(.mk _ _ _ childResults) => r :: resultNodesList childResults

def resultNodesList : List NodeResult → List NodeResult
  | [] => []
  | r :: rest => resultNodes r ++ resultNodesList rest

end

/-- What survives of a node's iab bucket inside an allow-unknown subtree:
no attribute results, and either a pristine pass bucket or a bucket failed
solely by the node-version check. -/
def exemptBucketProp (version : Version) (r : NodeResult) : Prop :=
  ∃ b, r.Analyses = [(IABAnalysisCategory, b)] ∧ b.Attributes = [] ∧
    ((b.Status = ResultStatus.pass ∧ b.Reasons = []) ∨
     (b.Status = ResultStatus.fail ∧
      b.Reasons = ["node " ++ r.Node ++ " is not supported in VAST " ++ version]))

/-- The C2 fixtures: a catalog where "Ext" allows unknown children and
"Known" is a recognized node valid only in version 4.3. -/
def c2extSpec : NodeSpec :=
  { Name := "Ext", Versions := ["4.2"], Attributes := [], Children := [],
    AllowUnknownChildren := true }

def c2knownSpec : NodeSpec :=
  { Name := "Known", Versions := ["4.3"], Attributes := [], Children := [],
    AllowUnknownChildren := false }

def c2cfg : Config :=
  { catalog := { Nodes := [("Ext", c2extSpec), ("Known", c2knownSpec)] },
    runCustom := false, runHTTP := false, customReg := [], httpReg := [] }

def c2known : GenericNode := .mk "Known" [] [] ""

def c2ext : GenericNode := .mk "Ext" [] [c2known] ""

namespace RS

/-- Lookup in the summary association list. -/
def lookupSummary (summaries : List (String × CategorySummary)) (c : String) :
    Option CategorySummary :=
  (summaries.find? (fun p => p.1 = c)).map (·.2)

end RS

/-- The category-`c` analysis buckets of the result tree in the order the
summarization walk meets them (pre-order). -/
def RS.categoryContribs (root : RS.NodeResult) (c : String) : List RS.NodeAnalysisResult :=
  ((((RS.preorder root).map RS.NodeResult.Analyses).flatten).filter
    (fun p => p.1 = c)).map (fun p => p.2)

/-- C9 witness fixtures: a two-node result tree with one failing bucket. -/
def c9child : RS.NodeResult :=
  .mk "B" []
    [("iab.analysis",
      { Category := "iab.analysis", Status := ResultStatus.pass, Reason := "",
        Attributes := [] })] []

def c9root : RS.NodeResult :=
  .mk "A" []
    [("iab.analysis",
      { Category := "iab.analysis", Status := ResultStatus.fail, Reason := "bad",
        Attributes := [] })] [c9child]

def c9summary : RS.CategorySummary :=
  { Category := "iab.analysis", TotalNodes := 2, FailingNodes := 1,
    Status := ResultStatus.fail, Reasons := ["bad"] }

/-!  Theorems. -/

/-- C1: `Validate` returns a call-level error (and no `ValidationResult`)
exactly when the input is empty, the markup is malformed, the catalog lacks a
"VAST" spec, the root's local name is not "VAST", or the version attribute is
absent or blank after trimming; on every other input it returns a
`ValidationResult`. -/
theorem C1_call_level_errors (raw : List Token) (cfg : Config) :
    ((∃ e, Validate raw cfg = Except.error e) ↔ callLevelErrorCondition raw cfg) ∧
    ((∃ res, Validate raw cfg = Except.ok res) ↔ ¬ callLevelErrorCondition raw cfg) := by
  have hdich : ∀ (x : Except VError ValidationResult),
      (∃ res, x = Except.ok res) ↔ ¬ (∃ e, x = Except.error e) := by
    intro x; cases x <;> simp
  suffices h : (∃ e, Validate raw cfg = Except.error e) ↔ callLevelErrorCondition raw cfg by
    exact ⟨h, by rw [hdich]; exact not_congr h⟩
  by_cases hraw : raw = []
  · subst hraw
    simp [Validate, callLevelErrorCondition]
  · have hne : raw.isEmpty = false := by
      cases raw with
      | nil => exact absurd rfl hraw
      | cons a l => rfl
    rcases hb : buildNodeTree raw with e | root
    · simp [Validate, hne, hb, callLevelErrorCondition, hraw]
    · by_cases hroot : root.localName = "VAST"
      · rcases hv : root.attrValue "version" with _ | v
        · simp [Validate, hne, hb, hroot, hv, callLevelErrorCondition, hraw]
        · by_cases htrim : trimSpace v = ""
          · simp [Validate, hne, hb, hroot, hv, htrim, callLevelErrorCondition, hraw]
          · rcases hcat : cfg.catalog.node "VAST" with _ | spec
            · simp [Validate, hne, hb, hroot, hv, htrim, hcat, callLevelErrorCondition, hraw]
            · simp [Validate, hne, hb, hroot, hv, htrim, hcat, callLevelErrorCondition, hraw]
      · simp [Validate, hne, hb, hroot, callLevelErrorCondition, hraw]

theorem lookupAnalysis_updateAnalysis (analyses : List (String × NodeAnalysisResult))
    (cat : String) (f : NodeAnalysisResult → NodeAnalysisResult) :
    lookupAnalysis (updateAnalysis analyses cat f) cat =
      some (f ((lookupAnalysis analyses cat).getD (freshAnalysis cat))) := by
  induction analyses with
  | nil => simp [updateAnalysis, lookupAnalysis]
  | cons p rest ih =>
    obtain ⟨c, a⟩ := p
    by_cases h : c = cat
    · subst h
      simp [updateAnalysis, lookupAnalysis]
    · simpa [updateAnalysis, lookupAnalysis, h] using ih

theorem markFailure_Status (a : NodeAnalysisResult) (rs : List String) :
    (markFailure a rs).Status = ResultStatus.fail := rfl

theorem mem_markFailure_Reasons (a : NodeAnalysisResult) (rs : List String) (r : String)
    (hr : r ∈ rs) (hne : r ≠ "") : r ∈ (markFailure a rs).Reasons := by
  simp only [markFailure, List.mem_append, List.mem_filter]
  exact Or.inr ⟨hr, by simpa using hne⟩

theorem buildNodeTree_nil : buildNodeTree [] = Except.error VError.emptyXML := rfl

/-- C3: on a well-formed document whose root is "VAST" with a non-blank
version attribute, an unknown (trimmed) version is not fatal: `Validate`
returns a result, the traversal runs with the parsed version for every
version-gating comparison, and the root's iab.analysis bucket is failed with
an explicit unsupported-version reason. -/
theorem C3_unsupported_version_not_fatal (raw : List Token) (cfg : Config)
    (root : GenericNode) (versionValue : String) (spec : NodeSpec)
    (hparse : buildNodeTree raw = Except.ok root)
    (hname : root.localName = "VAST")
    (hattr : root.attrValue "version" = some versionValue)
    (hblank : trimSpace versionValue ≠ "")
    (hcat : cfg.catalog.node "VAST" = some spec)
    (hunsupported : spec.supports (trimSpace versionValue) = false) :
    ∃ res, Validate raw cfg = Except.ok res ∧
      res.Version = trimSpace versionValue ∧
      res.Root = (validateNodeRecursive root (trimSpace versionValue) cfg (some spec) none
          false).updateAnalysisAt IABAnalysisCategory
          (fun a => markFailure a ["Unsupported VAST version: " ++ trimSpace versionValue]) ∧
      ∃ bucket, lookupAnalysis res.Root.Analyses IABAnalysisCategory = some bucket ∧
        bucket.Status = ResultStatus.fail ∧
        ("Unsupported VAST version: " ++ trimSpace versionValue) ∈ bucket.Reasons := by
  have hraw : raw ≠ [] := by
    intro h
    rw [h, buildNodeTree_nil] at hparse
    exact Except.noConfusion hparse
  have hne : raw.isEmpty = false := by
    cases raw with
    | nil => exact absurd rfl hraw
    | cons a l => rfl
  have hmsg : ("Unsupported VAST version: " ++ trimSpace versionValue) ≠ "" := by
    intro h
    have hd := congrArg String.data h
    simp [String.data_append] at hd
  have hval : Validate raw cfg = Except.ok {
      Version := trimSpace versionValue,
      Root := (validateNodeRecursive root (trimSpace versionValue) cfg (some spec) none
          false).updateAnalysisAt IABAnalysisCategory
          (fun a => markFailure a ["Unsupported VAST version: " ++ trimSpace versionValue]) } := by
    simp [Validate, hne, hparse, hname, hattr, hblank, hcat, hunsupported]
  refine ⟨_, hval, rfl, rfl, ?_⟩
  · rw [NodeResult.updateAnalysisAt]
    refine ⟨_, by rw [NodeResult.Analyses, lookupAnalysis_updateAnalysis], ?_, ?_⟩
    · exact markFailure_Status _ _
    · exact mem_markFailure_Reasons _ _ _ (by simp) hmsg

theorem C3_witness :
    ∃ res, Validate wDoc wCfg = Except.ok res ∧
      res.Version = trimSpace " 9.9 " ∧
      res.Root = (validateNodeRecursive wRoot (trimSpace " 9.9 ") wCfg (some wVASTSpec) none
          false).updateAnalysisAt IABAnalysisCategory
          (fun a => markFailure a ["Unsupported VAST version: " ++ trimSpace " 9.9 "]) ∧
      ∃ bucket, lookupAnalysis res.Root.Analyses IABAnalysisCategory = some bucket ∧
        bucket.Status = ResultStatus.fail ∧
        ("Unsupported VAST version: " ++ trimSpace " 9.9 ") ∈ bucket.Reasons :=
  C3_unsupported_version_not_fatal wDoc wCfg wRoot " 9.9 " wVASTSpec rfl rfl rfl
    (by decide) rfl (by decide)

/-- C4: failure monotonicity of a bucket within one pass: `markFailure` always
leaves the bucket failed, appending attribute results never changes the
status, and merging a later hook's contribution concatenates the
attribute-level results while the merged status is failed exactly when either
side failed — a failed bucket is never downgraded back to pass. -/
theorem C4_fail_is_monotone :
    (∀ (a : NodeAnalysisResult) (rs : List String),
        (markFailure a rs).Status = ResultStatus.fail) ∧
    (∀ (a : NodeAnalysisResult) (r : AttributeResult),
        (a.addAttribute r).Status = a.Status) ∧
    (∀ (analyses : List (String × NodeAnalysisResult)) (incoming existing : NodeAnalysisResult),
        lookupAnalysis analyses incoming.Category = some existing →
        ∃ merged,
          lookupAnalysis (mergeAnalysis analyses incoming) incoming.Category = some merged ∧
          merged.Attributes = existing.Attributes ++ incoming.Attributes ∧
          (merged.Status = ResultStatus.fail ↔
            (existing.Status = ResultStatus.fail ∨ incoming.Status = ResultStatus.fail))) := by
  refine ⟨fun a rs => rfl, fun a r => rfl, ?_⟩
  intro analyses incoming existing h
  induction analyses with
  | nil => simp [lookupAnalysis] at h
  | cons p rest ih =>
    obtain ⟨c, e⟩ := p
    by_cases hc : c = incoming.Category
    · subst hc
      have he : e = existing := by simpa [lookupAnalysis] using h
      subst he
      by_cases hs : incoming.Status = ResultStatus.fail
      · refine ⟨markFailure { e with
            Attributes := e.Attributes ++ incoming.Attributes } incoming.Reasons,
            ?_, ?_, ?_⟩
        · simp [mergeAnalysis, lookupAnalysis, hs]
        · simp [markFailure]
        · simp [markFailure, hs]
      · refine ⟨{ e with Attributes := e.Attributes ++ incoming.Attributes },
            ?_, ?_, ?_⟩
        · simp [mergeAnalysis, lookupAnalysis, hs]
        · simp
        · simp [hs]
    · have h' : lookupAnalysis rest incoming.Category = some existing := by
        simpa [lookupAnalysis, hc] using h
      obtain ⟨merged, hm, hattr, hstat⟩ := ih h'
      refine ⟨merged, ?_, hattr, hstat⟩
      simpa [mergeAnalysis, lookupAnalysis, hc] using hm

theorem C4_witness :
    ∃ merged,
      lookupAnalysis
          (mergeAnalysis
            [("custom.analysis",
              { Category := "custom.analysis", Status := ResultStatus.pass,
                Reasons := [], Attributes := [] })]
            { Category := "custom.analysis", Status := ResultStatus.fail,
              Reasons := ["boom"], Attributes := [] })
          "custom.analysis" = some merged ∧
      merged.Attributes =
        ({ Category := "custom.analysis", Status := ResultStatus.pass, Reasons := [],
           Attributes := [] } : NodeAnalysisResult).Attributes ++
        ({ Category := "custom.analysis", Status := ResultStatus.fail, Reasons := ["boom"],
           Attributes := [] } : NodeAnalysisResult).Attributes ∧
      (merged.Status = ResultStatus.fail ↔
        (({ Category := "custom.analysis", Status := ResultStatus.pass, Reasons := [],
            Attributes := [] } : NodeAnalysisResult).Status = ResultStatus.fail ∨
         ({ Category := "custom.analysis", Status := ResultStatus.fail, Reasons := ["boom"],
            Attributes := [] } : NodeAnalysisResult).Status = ResultStatus.fail)) :=
  C4_fail_is_monotone.2.2
    [("custom.analysis",
      { Category := "custom.analysis", Status := ResultStatus.pass,
        Reasons := [], Attributes := [] })]
    { Category := "custom.analysis", Status := ResultStatus.fail,
      Reasons := ["boom"], Attributes := [] }
    { Category := "custom.analysis", Status := ResultStatus.pass,
      Reasons := [], Attributes := [] }
    rfl

theorem markFailure_Attributes (a : NodeAnalysisResult) (rs : List String) :
    (markFailure a rs).Attributes = a.Attributes := rfl

/-- Each present attribute processed by `validateAttrStep` appends exactly one
attribute result, named after the attribute. -/
theorem validateAttrStep_append (version : Version) (spec : Option NodeSpec)
    (a : NodeAnalysisResult) (attr : XAttr) :
    ∃ r : AttributeResult,
      (validateAttrStep version spec a attr).Attributes = a.Attributes ++ [r] ∧
      r.Name = attr.name := by
  rcases spec with _ | s
  · exact ⟨{ Name := attr.name, VersionSupport := [], Status := ResultStatus.fail,
             Reasons := ["node is not recognized; attribute cannot be validated"] }, rfl, rfl⟩
  · rcases h : s.attribute attr.name with _ | attrSpec
    · refine ⟨{ Name := attr.name, VersionSupport := [], Status := ResultStatus.fail,
                Reasons := ["attribute " ++ attr.name ++ " is not allowed on " ++ s.Name] },
          ?_, rfl⟩
      simp [validateAttrStep, h, markFailure, NodeAnalysisResult.addAttribute]
    · by_cases h1 : attrSpec.supports version <;>
        by_cases hv : trimSpace attr.value = "" <;>
        by_cases hA : attrSpec.AllowEmpty <;>
        · simp only [validateAttrStep, h, h1, hv, hA, Bool.not_true, Bool.not_false,
            Bool.and_true, Bool.and_false, Bool.true_and, Bool.false_and, if_true, if_false,
            Bool.false_eq_true, Bool.true_eq_false, ite_true, ite_false, decide_True,
            decide_False, ite_self, eq_self_iff_true, not_true, not_false_iff]
          exact ⟨_, rfl, rfl⟩

/-- The present-attribute loop appends one named result per attribute, in
document order. -/
theorem foldl_validateAttrStep_append (version : Version) (spec : Option NodeSpec)
    (attrs : List XAttr) :
    ∀ a : NodeAnalysisResult, ∃ rs : List AttributeResult,
      (attrs.foldl (validateAttrStep version spec) a).Attributes = a.Attributes ++ rs ∧
      rs.map (fun r => r.Name) = attrs.map (fun x => x.name) := by
  induction attrs with
  | nil => exact fun a => ⟨[], by simp, rfl⟩
  | cons attr rest ih =>
    intro a
    obtain ⟨r, hr, hname⟩ := validateAttrStep_append version spec a attr
    obtain ⟨rs, hrs, hnames⟩ := ih (validateAttrStep version spec a attr)
    refine ⟨r :: rs, ?_, ?_⟩
    · simp [List.foldl_cons, hrs, hr]
    · simp [hname, hnames]

/-- With no spec, the present-attribute loop marks every attribute failed. -/
theorem foldl_validateAttrStep_none (version : Version) (attrs : List XAttr) :
    ∀ a : NodeAnalysisResult, ∃ rs : List AttributeResult,
      (attrs.foldl (validateAttrStep version none) a).Attributes = a.Attributes ++ rs ∧
      rs.map (fun r => r.Name) = attrs.map (fun x => x.name) ∧
      ∀ r ∈ rs, r.Status = ResultStatus.fail := by
  induction attrs with
  | nil => exact fun a => ⟨[], by simp, rfl, by simp⟩
  | cons attr rest ih =>
    intro a
    obtain ⟨rs, hrs, hnames, hfail⟩ := ih (validateAttrStep version none a attr)
    refine ⟨{ Name := attr.name, VersionSupport := [], Status := ResultStatus.fail,
              Reasons := ["node is not recognized; attribute cannot be validated"] } :: rs,
        ?_, ?_, ?_⟩
    · rw [List.foldl_cons, hrs]
      have hstep : (validateAttrStep version none a attr).Attributes =
          a.Attributes ++ [{ Name := attr.name, VersionSupport := [],
                             Status := ResultStatus.fail,
                             Reasons :=
                               ["node is not recognized; attribute cannot be validated"] }] :=
        rfl
      rw [hstep, List.append_assoc]
      rfl
    · simp [hnames]
    · intro r hr
      rcases List.mem_cons.mp hr with h | h
      · rw [h]
      · exact hfail r h

/-- The required-attribute sweep appends one synthetic failing result for each
required attribute absent from the node, in spec order. -/
theorem requiredSweep_spec (node : GenericNode) (l : List (String × AttributeSpec)) :
    ∀ a : NodeAnalysisResult, ∃ ms : List AttributeResult,
      (requiredSweep node l a).Attributes = a.Attributes ++ ms ∧
      ms.map (fun r => r.Name) =
        ((l.filter (fun p =>
            p.2.Required && !((node.attrs.map (fun x => x.name)).contains p.2.Name))).map
          (fun p => p.2.Name)) ∧
      ∀ m ∈ ms, m.Status = ResultStatus.fail := by
  induction l with
  | nil => exact fun a => ⟨[], by simp [requiredSweep], rfl, by simp⟩
  | cons p rest ih =>
    intro a
    by_cases h1 : p.2.Required
    · by_cases h2 : ((node.attrs.map (fun x => x.name)).contains p.2.Name)
      · obtain ⟨ms, hm, hn, hf⟩ := ih a
        refine ⟨ms, ?_, ?_, hf⟩
        · rw [requiredSweep]
          simp only [h1, h2, Bool.not_true, Bool.false_eq_true, Bool.true_eq_false, if_false, if_true]
          exact hm
        · rw [List.filter_cons]
          simp only [h1, h2, Bool.not_true, Bool.and_false, Bool.false_eq_true, if_false, List.filter_cons]
          exact hn
      · have h2' : ((node.attrs.map (fun x => x.name)).contains p.2.Name) = false :=
          Bool.not_eq_true _ ▸ (by simpa using h2)
        obtain ⟨ms, hm, hn, hf⟩ := ih (markFailure
          (a.addAttribute
            { Name := p.2.Name, VersionSupport := p.2.Versions,
              Status := ResultStatus.fail,
              Reasons := ["missing required attribute " ++ p.2.Name] })
          ["missing required attribute " ++ p.2.Name])
        refine ⟨{ Name := p.2.Name, VersionSupport := p.2.Versions,
                  Status := ResultStatus.fail,
                  Reasons := ["missing required attribute " ++ p.2.Name] } :: ms,
            ?_, ?_, ?_⟩
        · rw [requiredSweep]
          simp only [h1, h2', Bool.not_true, Bool.false_eq_true, Bool.true_eq_false, if_false, if_true]
          rw [hm]
          simp only [markFailure, NodeAnalysisResult.addAttribute, List.append_assoc,
            List.singleton_append]
        · rw [List.filter_cons]
          simp only [h1, h2', Bool.not_false, Bool.and_true, Bool.true_and,
            Bool.true_eq_false, Bool.false_eq_true, if_true, List.map_cons]
          simpa using hn
        · intro m hmem
          rcases List.mem_cons.mp hmem with h | h
          · rw [h]
          · exact hf m h
    · have h1' : p.2.Required = false := Bool.not_eq_true _ ▸ (by simpa using h1)
      obtain ⟨ms, hm, hn, hf⟩ := ih a
      refine ⟨ms, ?_, ?_, hf⟩
      · rw [requiredSweep]
        simp only [h1', Bool.not_false, Bool.false_eq_true, Bool.true_eq_false, if_false, if_true]
        exact hm
      · rw [List.filter_cons]
        simp only [h1', Bool.false_and, Bool.false_eq_true, if_false]
        exact hn

/-- C5: for a node with a spec, every present attribute yields exactly one
attribute result (one per occurrence, named for it, even on failure), and
after all present attributes a synthetic failing result is appended for each
required attribute absent from the node; for a node with no spec, every
present attribute yields a failing attribute result. -/
theorem C5_one_result_per_attribute (node : GenericNode) (version : Version)
    (a : NodeAnalysisResult) :
    (∀ s : NodeSpec, ∃ present missing : List AttributeResult,
      (validateAttributes node version (some s) a).Attributes =
        a.Attributes ++ present ++ missing ∧
      present.map (fun r => r.Name) = node.attrs.map (fun x => x.name) ∧
      missing.map (fun r => r.Name) =
        ((s.Attributes.filter (fun p =>
            p.2.Required && !((node.attrs.map (fun x => x.name)).contains p.2.Name))).map
          (fun p => p.2.Name)) ∧
      ∀ m ∈ missing, m.Status = ResultStatus.fail) ∧
    (∃ rs : List AttributeResult,
      (validateAttributes node version none a).Attributes = a.Attributes ++ rs ∧
      rs.map (fun r => r.Name) = node.attrs.map (fun x => x.name) ∧
      ∀ r ∈ rs, r.Status = ResultStatus.fail) := by
  constructor
  · intro s
    obtain ⟨present, hp, hpn⟩ := foldl_validateAttrStep_append version (some s) node.attrs a
    obtain ⟨missing, hm, hmn, hmf⟩ := requiredSweep_spec node s.Attributes
      (node.attrs.foldl (validateAttrStep version (some s)) a)
    refine ⟨present, missing, ?_, hpn, hmn, hmf⟩
    show (requiredSweep node s.Attributes
        (node.attrs.foldl (validateAttrStep version (some s)) a)).Attributes = _
    rw [hm, hp, List.append_assoc]
  · obtain ⟨rs, h, hn, hf⟩ := foldl_validateAttrStep_none version node.attrs a
    exact ⟨rs, h, hn, hf⟩

theorem C5_witness :
    ∃ present missing : List AttributeResult,
      (validateAttributes wRoot "4.2" (some wVASTSpec)
          (freshAnalysis IABAnalysisCategory)).Attributes =
        (freshAnalysis IABAnalysisCategory).Attributes ++ present ++ missing ∧
      present.map (fun r => r.Name) = wRoot.attrs.map (fun x => x.name) ∧
      missing.map (fun r => r.Name) =
        ((wVASTSpec.Attributes.filter (fun p =>
            p.2.Required && !((wRoot.attrs.map (fun x => x.name)).contains p.2.Name))).map
          (fun p => p.2.Name)) ∧
      ∀ m ∈ missing, m.Status = ResultStatus.fail :=
  (C5_one_result_per_attribute wRoot "4.2" (freshAnalysis IABAnalysisCategory)).1 wVASTSpec

/-- C6 counterexample: with duplicate attribute names, `attrValue` returns the
value of the FIRST occurrence in document order, not the last: on a node with
("type","a") before ("type","b") the lookup yields "a", refuting
last-one-wins. -/
theorem C6_counterexample :
    c6node.attrs = [{ name := "type", value := "a" }, { name := "type", value := "b" }] ∧
    (c6node.attrs.map (fun x => x.value)).getLast? = some "b" ∧
    c6node.attrValue "type" = some "a" ∧
    c6node.attrValue "type" ≠ some "b" :=
  ⟨rfl, rfl, rfl, by decide⟩

theorem attrValue_go_eq_find (name : String) (l : List XAttr) :
    GenericNode.attrValue.go name l = (l.find? (fun x => x.name = name)).map (fun x => x.value) := by
  induction l with
  | nil => rfl
  | cons x rest ih =>
    by_cases h : x.name = name
    · simp [GenericNode.attrValue.go, List.find?_cons, h]
    · simp [GenericNode.attrValue.go, List.find?_cons, h, ih]

/-- C6 amended: attribute lookup is first-one-wins (the value of the first
occurrence in document order), while per-attribute reporting still yields one
`AttributeResult` per occurrence independently. -/
theorem C6_first_occurrence_lookup :
    (∀ (n : GenericNode) (name : String),
      n.attrValue name = (n.attrs.find? (fun x => x.name = name)).map (fun x => x.value)) ∧
    (∀ (version : Version) (spec : Option NodeSpec) (node : GenericNode)
        (a : NodeAnalysisResult),
      ∃ rs : List AttributeResult,
        (node.attrs.foldl (validateAttrStep version spec) a).Attributes =
          a.Attributes ++ rs ∧
        rs.map (fun r => r.Name) = node.attrs.map (fun x => x.name)) := by
  constructor
  · intro n name
    exact attrValue_go_eq_find name n.attrs
  · intro version spec node a
    exact foldl_validateAttrStep_append version spec node.attrs a

/-- C7 counterexample: on "http:/path" (parseable, non-empty, scheme "http"
present — so none of the claim's four error conditions holds, in particular
it does not lack BOTH scheme and host), `normalizeProbeURL` still returns an
error, because the code rejects a URL missing EITHER the scheme or the host. -/
theorem C7_counterexample :
    normalizeProbeURL c7parse "http:/path" =
      Except.error (ProbeURLError.missingSchemeOrHost "http:/path") ∧
    trimSpace "http:/path" ≠ "" ∧
    (∃ u, c7parse (trimSpace "http:/path") = some u ∧
      ¬(u.Scheme = "" ∧ u.Host = "") ∧ (u.Scheme = "http" ∨ u.Scheme = "https")) := by
  refine ⟨rfl, by decide,
    ⟨{ Scheme := "http", Host := "", render := "http:/path" }, rfl, by decide, ?_⟩⟩
  exact Or.inl rfl

/-- C7 amended: URL normalization trims, rewrites a leading `//` to HTTPS,
and errors exactly when the trimmed string is empty, the URL is unparseable,
the parsed URL lacks a scheme OR lacks a host, or the scheme is neither
"http" nor "https"; every other input yields the parsed URL's rendering. -/
theorem C7_normalize_errors (parse : URLParser) (raw : String) :
    ((∃ e, normalizeProbeURL parse raw = Except.error e) ↔
      (trimSpace raw = "" ∨
        ∀ u, parse (if hasDoubleSlash (trimSpace raw) then "https:" ++ trimSpace raw
              else trimSpace raw) = some u →
          u.Scheme = "" ∨ u.Host = "" ∨ (u.Scheme ≠ "http" ∧ u.Scheme ≠ "https"))) ∧
    (∀ u, trimSpace raw ≠ "" →
      parse (if hasDoubleSlash (trimSpace raw) then "https:" ++ trimSpace raw
          else trimSpace raw) = some u →
      u.Scheme ≠ "" → u.Host ≠ "" → (u.Scheme = "http" ∨ u.Scheme = "https") →
      normalizeProbeURL parse raw = Except.ok u.render) := by
  constructor
  · by_cases h0 : trimSpace raw = ""
    · constructor
      · intro _
        exact Or.inl h0
      · intro _
        exact ⟨ProbeURLError.emptyURL, by simp [normalizeProbeURL, h0]⟩
    · rcases hp : parse (if hasDoubleSlash (trimSpace raw) then "https:" ++ trimSpace raw
          else trimSpace raw) with _ | u
      · have hval : normalizeProbeURL parse raw =
            Except.error (ProbeURLError.invalidURL raw) := by
          simp [normalizeProbeURL, h0, hp]
        rw [hval]
        constructor
        · intro _
          right
          intro v hv
          exact Option.noConfusion hv
        · intro _
          exact ⟨_, rfl⟩
      · by_cases hs : u.Scheme = ""
        · have hval : normalizeProbeURL parse raw =
              Except.error (ProbeURLError.missingSchemeOrHost raw) := by
            simp [normalizeProbeURL, h0, hp, hs]
          rw [hval]
          constructor
          · intro _
            right
            intro v hv
            have hvu : u = v := Option.some.inj hv
            exact Or.inl (hvu ▸ hs)
          · intro _
            exact ⟨_, rfl⟩
        · by_cases hh : u.Host = ""
          · have hval : normalizeProbeURL parse raw =
                Except.error (ProbeURLError.missingSchemeOrHost raw) := by
              simp [normalizeProbeURL, h0, hp, hs, hh]
            rw [hval]
            constructor
            · intro _
              right
              intro v hv
              have hvu : u = v := Option.some.inj hv
              exact Or.inr (Or.inl (hvu ▸ hh))
            · intro _
              exact ⟨_, rfl⟩
          · by_cases hx : u.Scheme = "http" ∨ u.Scheme = "https"
            · have hval : normalizeProbeURL parse raw = Except.ok u.render := by
                rcases hx with h | h <;> simp [normalizeProbeURL, h0, hp, hs, hh, h]
              rw [hval]
              constructor
              · intro h
                obtain ⟨e, he⟩ := h
                exact Except.noConfusion he
              · intro hcond
                exfalso
                rcases hcond with h | h
                · exact h0 h
                · rcases h u rfl with h | h | h
                  · exact hs h
                  · exact hh h
                  · rcases hx with hx' | hx'
                    · exact h.1 hx'
                    · exact h.2 hx'
            · push_neg at hx
              have hval : normalizeProbeURL parse raw =
                  Except.error (ProbeURLError.unsupportedScheme u.Scheme) := by
                simp [normalizeProbeURL, h0, hp, hs, hh, hx.1, hx.2]
              rw [hval]
              constructor
              · intro _
                right
                intro v hv
                have hvu : u = v := Option.some.inj hv
                exact Or.inr (Or.inr (hvu ▸ hx))
              · intro _
                exact ⟨_, rfl⟩
  · intro u hraw hp hs hh hx
    rcases hx with h | h <;> simp [normalizeProbeURL, hraw, hp, hs, hh, h]

theorem C7_witness :
    normalizeProbeURL c7goodparse " //h/x " = Except.ok "https://h/x" :=
  (C7_normalize_errors c7goodparse " //h/x ").2
    { Scheme := "https", Host := "h", render := "https://h/x" }
    (by decide) (by decide) (by decide) (by decide) (Or.inr rfl)

/-- C8: the probe issues a HEAD request first and retries with a ranged GET
(`Range: bytes=0-0`) exactly when the HEAD response status is 405; any other
HEAD response is returned as-is.  A probe response with status >= 400 yields a
failed media-file analysis whose reason cites the numeric status.  A server
answering 405 to HEAD and 200 (with matching content type) to the ranged GET
passes. -/
theorem C8_head_then_ranged_get :
    (∀ (parse : URLParser) (client : HTTPClient) (raw normalized : String)
        (resp : HTTPResponse),
      normalizeProbeURL parse raw = Except.ok normalized →
      client "HEAD" normalized [] = Except.ok resp →
      (resp.StatusCode ≠ 405 → probeMediaURL parse client raw = Except.ok resp) ∧
      (resp.StatusCode = 405 →
        probeMediaURL parse client raw =
          (match client "GET" normalized [("Range", probeRangeHeader)] with
           | Except.ok resp2 => Except.ok resp2
           | Except.error e => Except.error (ProbeError.transport e)))) ∧
    (∀ (parse : URLParser) (client : HTTPClient) (node : GenericNode) (version : Version)
        (resp : HTTPResponse),
      trimSpace node.content ≠ "" →
      probeMediaURL parse client (trimSpace node.content) = Except.ok resp →
      400 ≤ resp.StatusCode →
      mediaFileHTTPValidator parse client { Node := node, Version := version } =
        { Category := CustomAnalysisCategory, Status := ResultStatus.fail,
          Reasons := ["media file responded with HTTP " ++ toString resp.StatusCode],
          Attributes := [] }) ∧
    (mediaFileHTTPValidator c8parse c8client { Node := c8node, Version := "4.2" } =
      { Category := CustomAnalysisCategory, Status := ResultStatus.pass, Reasons := [],
        Attributes := [] }) := by
  refine ⟨?_, ?_, rfl⟩
  · intro parse client raw normalized resp hn hc
    constructor
    · intro hne
      simp [probeMediaURL, hn, hc, hne]
    · intro heq
      simp [probeMediaURL, hn, hc, heq]
  · intro parse client node version resp h1 hp hge
    have hlt : ¬ resp.StatusCode < 400 := by omega
    simp [mediaFileHTTPValidator, NodeContext.Text, h1, hp, hge, hlt]

/-- The 405-to-HEAD / 200-to-ranged-GET scenario succeeds end to end. -/
theorem C8_witness :
    probeMediaURL c8parse c8client c8url =
      (match c8client "GET" c8url [("Range", probeRangeHeader)] with
       | Except.ok resp2 => Except.ok resp2
       | Except.error e => Except.error (ProbeError.transport e)) ∧
    mediaFileHTTPValidator c8parse c8client { Node := c8node, Version := "4.2" } =
      { Category := CustomAnalysisCategory, Status := ResultStatus.pass, Reasons := [],
        Attributes := [] } :=
  ⟨(C8_head_then_ranged_get.1 c8parse c8client c8url c8url
      { StatusCode := 405, ContentType := "" } rfl rfl).2 rfl,
   rfl⟩

theorem Registry_lookup_insert {f : Type} (reg : Registry f) (key : String) (v : f) :
    Registry.lookup (Registry.insert reg key v) key = Registry.lookup reg key ++ [v] := by
  induction reg with
  | nil => simp [Registry.insert, Registry.lookup]
  | cons p rest ih =>
    obtain ⟨k, l⟩ := p
    by_cases h : k = key
    · subst h
      simp [Registry.insert, Registry.lookup]
    · simpa [Registry.insert, Registry.lookup, h] using ih

/-- C10: both hook registries key validators by the lower-cased node name on
registration and retrieval, so registration and lookup are case-insensitive:
a validator registered under one spelling is retrieved (appended to the
previously registered ones) for every spelling with the same lower-casing —
in particular "mediafile" vs "MediaFile" — while the catalog lookup on the
same pair of names is case-sensitive (exact-key). -/
theorem C10_registry_case_insensitive :
    (∀ (reg : Registry NodeValidatorFunc) (n m : String) (f : NodeValidatorFunc),
      lowerString n = lowerString m →
      getCustomValidators (RegisterCustomValidator reg n (some f)) m =
        getCustomValidators reg m ++ [f]) ∧
    (∀ (reg : Registry HTTPValidatorFunc) (n m : String) (f : HTTPValidatorFunc),
      lowerString n = lowerString m →
      getHTTPValidators (RegisterHTTPValidator reg n (some f)) m =
        getHTTPValidators reg m ++ [f]) ∧
    (lowerString "mediafile" = lowerString "MediaFile") ∧
    (∀ (s : NodeSpec),
      (Catalog.node { Nodes := [("MediaFile", s)] } "MediaFile" = some s) ∧
      Catalog.node { Nodes := [("MediaFile", s)] } "mediafile" = none) := by
  refine ⟨?_, ?_, by decide, ?_⟩
  · intro reg n m f h
    show Registry.lookup (Registry.insert reg (lowerString n) f) (lowerString m) = _
    rw [h]
    exact Registry_lookup_insert reg (lowerString m) f
  · intro reg n m f h
    show Registry.lookup (Registry.insert reg (lowerString n) f) (lowerString m) = _
    rw [h]
    exact Registry_lookup_insert reg (lowerString m) f
  · intro s
    constructor
    · simp [Catalog.node]
    · simp [Catalog.node]

theorem C10_witness :
    getCustomValidators
        (RegisterCustomValidator ([] : Registry NodeValidatorFunc) "mediafile"
          (some (fun _ => none)))
        "MediaFile" =
      getCustomValidators ([] : Registry NodeValidatorFunc) "MediaFile" ++
        [(fun _ => none : NodeValidatorFunc)] :=
  C10_registry_case_insensitive.1 [] "mediafile" "MediaFile"
    (fun _ => none : NodeValidatorFunc) (by decide)

theorem string_append_ne_empty (s t : String) (h : s.data ≠ []) : s ++ t ≠ "" := by
  intro he
  apply h
  have hd := congrArg String.data he
  rw [String.data_append] at hd
  exact (List.append_eq_nil.mp hd).1

/-- C2 counterexample: a recognized node ("Known", valid only in VAST 4.3)
sitting under a parent that allows unknown children is NOT exempt from the
node-version check: validating the "Ext" subtree in version 4.2 fails the
child's spec-compliance bucket, refuting "no structural checks ... no
node-version check" for such subtrees. -/
theorem C2_counterexample :
    ∃ childResult,
      (validateNodeRecursive c2ext "4.2" c2cfg (some c2extSpec) none false).Children =
        [childResult] ∧
      lookupAnalysis childResult.Analyses IABAnalysisCategory =
        some { Category := IABAnalysisCategory, Status := ResultStatus.fail,
               Reasons := ["node Known is not supported in VAST 4.2"], Attributes := [] } :=
  ⟨_, rfl, rfl⟩

mutual

theorem C2auxNode : ∀ (node : GenericNode) (version : Version) (cfg : Config)
    (spec parentSpec : Option NodeSpec),
    cfg.runCustom = false → cfg.runHTTP = false →
    ∀ r ∈ resultNodes (validateNodeRecursive node version cfg spec parentSpec true),
      exemptBucketProp version r
  | .mk nm ats chs ct, version, cfg, spec, parentSpec, hc, hh => by
    intro r hr
    rw [validateNodeRecursive.eq_def] at hr
    simp only [hc, hh, GenericNode.localName, GenericNode.children, Bool.true_or,
      if_true, if_false, ite_true, ite_false, Bool.false_eq_true, Bool.true_eq_false] at hr
    rw [resultNodes] at hr
    rcases List.mem_cons.mp hr with heq | hmem
    · subst heq
      refine ⟨iabStructuralPhase nm version spec parentSpec true, ?_, ?_, ?_⟩
      · rfl
      · rcases spec with _ | s
        · rfl
        · rcases parentSpec with _ | ps <;>
          · by_cases hs : s.supports version <;>
              simp [iabStructuralPhase, hs, freshAnalysis, markFailure]
      · show (iabStructuralPhase nm version spec parentSpec true).Status = _ ∧ _ ∨ _
        rcases spec with _ | s
        · exact Or.inl ⟨rfl, rfl⟩
        · rcases parentSpec with _ | ps <;>
          · by_cases hs : s.supports version
            · left
              constructor <;> simp [iabStructuralPhase, hs, freshAnalysis]
            · right
              constructor <;>
                simp [iabStructuralPhase, hs, freshAnalysis, markFailure,
                  NodeResult.Node, string_append_ne_empty]
    · exact C2auxList chs version cfg spec hc hh r hmem

theorem C2auxList : ∀ (nodes : List GenericNode) (version : Version) (cfg : Config)
    (spec : Option NodeSpec),
    cfg.runCustom = false → cfg.runHTTP = false →
    ∀ r ∈ resultNodesList (validateChildren nodes version cfg spec true),
      exemptBucketProp version r
  | [], version, cfg, spec, hc, hh => by
    intro r hr
    rw [validateChildren, resultNodesList] at hr
    exact absurd hr (List.not_mem_nil r)
  | child :: rest, version, cfg, spec, hc, hh => by
    intro r hr
    rw [validateChildren, resultNodesList] at hr
    rcases List.mem_append.mp hr with h | h
    · exact C2auxNode child version cfg (cfg.catalog.node child.localName) spec hc hh r h
    · exact C2auxList rest version cfg spec hc hh r h

end

/-- C2 amended: with hooks disabled, every node of a subtree whose parent (or
an ancestor, once granted) allows unknown children is exempt from the
unrecognized-node check, the child-relationship checks and all attribute
checks: its sole analysis bucket carries no attribute results and either
passes pristinely or fails only the (still-performed) node-version check. -/
theorem C2_allow_unknown_exemption (node : GenericNode) (version : Version) (cfg : Config)
    (spec parentSpec : Option NodeSpec)
    (hc : cfg.runCustom = false) (hh : cfg.runHTTP = false) :
    ∀ r ∈ resultNodes (validateNodeRecursive node version cfg spec parentSpec true),
      exemptBucketProp version r :=
  C2auxNode node version cfg spec parentSpec hc hh

theorem C2_witness :
    c2cfg.runCustom = false ∧ c2cfg.runHTTP = false ∧
    ∀ r ∈ resultNodes (validateNodeRecursive c2known "4.2" c2cfg (some c2knownSpec)
        (some c2extSpec) true),
      exemptBucketProp "4.2" r :=
  ⟨rfl, rfl,
    C2_allow_unknown_exemption c2known "4.2" c2cfg (some c2knownSpec) (some c2extSpec)
      rfl rfl⟩

namespace RS

theorem lookupSummary_updateSummaries (acc : List (String × CategorySummary))
    (p : String × NodeAnalysisResult) (c : String) :
    lookupSummary (updateSummaries acc p) c =
      if p.1 = c then
        some (applyAnalysis ((lookupSummary acc c).getD (freshSummary c)) p.2)
      else lookupSummary acc c := by
  induction acc with
  | nil =>
    by_cases h : p.1 = c
    · subst h
      simp [updateSummaries, lookupSummary]
    · simp [updateSummaries, lookupSummary, h]
  | cons q rest ih =>
    obtain ⟨k, s⟩ := q
    by_cases hk : k = p.1
    · have step : updateSummaries ((k, s) :: rest) p = (k, applyAnalysis s p.2) :: rest := by
        simp [updateSummaries, hk]
      rw [step]
      by_cases hc : p.1 = c
      · have hkc : k = c := hk.trans hc
        simp [lookupSummary, hkc, hc]
      · have hkc : ¬ k = c := fun h => hc (hk.symm.trans h)
        simp [lookupSummary, hkc, hc]
    · have step : updateSummaries ((k, s) :: rest) p = (k, s) :: updateSummaries rest p := by
        simp [updateSummaries, hk]
      rw [step]
      by_cases hc : k = c
      · subst hc
        have hpc : ¬ p.1 = k := fun hp => hk hp.symm
        simp [lookupSummary, hpc]
      · have l1 : lookupSummary ((k, s) :: updateSummaries rest p) c =
            lookupSummary (updateSummaries rest p) c := by
          simp [lookupSummary, hc]
        have l2 : lookupSummary ((k, s) :: rest) c = lookupSummary rest c := by
          simp [lookupSummary, hc]
        rw [l1, l2, ih]

theorem lookupSummary_foldl (ps : List (String × NodeAnalysisResult)) :
    ∀ (acc : List (String × CategorySummary)) (c : String),
      lookupSummary (ps.foldl updateSummaries acc) c =
        match lookupSummary acc c with
        | some s =>
            some (((ps.filter (fun p => p.1 = c)).map (fun p => p.2)).foldl applyAnalysis s)
        | none =>
            if ((ps.filter (fun p => p.1 = c)).map (fun p => p.2)).isEmpty then none
            else
              some (((ps.filter (fun p => p.1 = c)).map (fun p => p.2)).foldl applyAnalysis
                (freshSummary c)) := by
  induction ps with
  | nil =>
    intro acc c
    rcases h : lookupSummary acc c with _ | s <;> simp [h]
  | cons p rest ih =>
    intro acc c
    rw [List.foldl_cons, ih (updateSummaries acc p) c,
      lookupSummary_updateSummaries acc p c]
    by_cases hpc : p.1 = c
    · have hfc : List.filter (fun q => q.1 = c) (p :: rest) =
          p :: List.filter (fun q => q.1 = c) rest := by
        simp [List.filter_cons, hpc]
      rw [hfc]
      rcases h : lookupSummary acc c with _ | s <;> simp [hpc, h, List.foldl_cons]
    · have hfc : List.filter (fun q => q.1 = c) (p :: rest) =
          List.filter (fun q => q.1 = c) rest := by
        simp [List.filter_cons, hpc]
      rw [hfc]
      rcases h : lookupSummary acc c with _ | s <;> simp [hpc, h]

theorem applyAnalysis_Category (s : CategorySummary) (a : NodeAnalysisResult) :
    (applyAnalysis s a).Category = s.Category := by
  rw [applyAnalysis]
  by_cases hf : a.Status = ResultStatus.fail <;>
    by_cases hr : a.Reason ≠ "" ∧ s.Reasons.length < 5 <;>
    simp [hf, hr]

theorem applyAnalysis_TotalNodes (s : CategorySummary) (a : NodeAnalysisResult) :
    (applyAnalysis s a).TotalNodes = s.TotalNodes + 1 := by
  rw [applyAnalysis]
  by_cases hf : a.Status = ResultStatus.fail <;>
    by_cases hr : a.Reason ≠ "" ∧ s.Reasons.length < 5 <;>
    simp [hf, hr]

theorem applyAnalysis_FailingNodes (s : CategorySummary) (a : NodeAnalysisResult) :
    (applyAnalysis s a).FailingNodes =
      s.FailingNodes + (if a.Status = ResultStatus.fail then 1 else 0) := by
  rw [applyAnalysis]
  by_cases hf : a.Status = ResultStatus.fail <;>
    by_cases hr : a.Reason ≠ "" ∧ s.Reasons.length < 5 <;>
    simp [hf, hr]

theorem applyAnalysis_Status (s : CategorySummary) (a : NodeAnalysisResult) :
    (applyAnalysis s a).Status =
      (if a.Status = ResultStatus.fail then ResultStatus.fail else s.Status) := by
  rw [applyAnalysis]
  by_cases hf : a.Status = ResultStatus.fail <;>
    by_cases hr : a.Reason ≠ "" ∧ s.Reasons.length < 5 <;>
    simp [hf, hr]

theorem applyAnalysis_Reasons (s : CategorySummary) (a : NodeAnalysisResult) :
    (applyAnalysis s a).Reasons =
      (if a.Status = ResultStatus.fail ∧ a.Reason ≠ "" ∧ s.Reasons.length < 5 then
        s.Reasons ++ [a.Reason] else s.Reasons) := by
  rw [applyAnalysis]
  by_cases hf : a.Status = ResultStatus.fail <;>
    by_cases hr : a.Reason ≠ "" ∧ s.Reasons.length < 5
  · simp [hf, hr, hr.1, hr.2]
  · rcases Decidable.not_and_iff_or_not.mp hr with h' | h'
    · have he : a.Reason = "" := by simpa using h'
      simp [hf, he]
    · simp [hf, h', hr]
  · simp [hf, hr.1, hr.2]
  · simp [hf]

theorem applyAnalysis_Reasons_le (s : CategorySummary) (a : NodeAnalysisResult)
    (h : s.Reasons.length ≤ 5) : (applyAnalysis s a).Reasons.length ≤ 5 := by
  by_cases hc : a.Status = ResultStatus.fail ∧ a.Reason ≠ "" ∧ s.Reasons.length < 5
  · rw [applyAnalysis_Reasons, if_pos hc]
    simp only [List.length_append, List.length_singleton]
    have := hc.2.2
    omega
  · rw [applyAnalysis_Reasons, if_neg hc]
    exact h

theorem foldl_applyAnalysis (contribs : List NodeAnalysisResult) :
    ∀ s : CategorySummary, s.Reasons.length ≤ 5 →
      (contribs.foldl applyAnalysis s).Category = s.Category ∧
      (contribs.foldl applyAnalysis s).TotalNodes = s.TotalNodes + contribs.length ∧
      (contribs.foldl applyAnalysis s).FailingNodes =
        s.FailingNodes + (contribs.filter (fun a => a.Status = ResultStatus.fail)).length ∧
      (contribs.foldl applyAnalysis s).Status =
        (if contribs.any (fun a => a.Status = ResultStatus.fail) then ResultStatus.fail
         else s.Status) ∧
      (contribs.foldl applyAnalysis s).Reasons =
        (s.Reasons ++
          ((contribs.filter (fun a => a.Status = ResultStatus.fail)).map
              (fun a => a.Reason)).filter (fun x => x ≠ "")).take 5 := by
  induction contribs with
  | nil =>
    intro s h
    refine ⟨rfl, by simp, by simp, by simp, ?_⟩
    simp [List.take_of_length_le h]
  | cons a rest ih =>
    intro s h
    have hle : (applyAnalysis s a).Reasons.length ≤ 5 := applyAnalysis_Reasons_le s a h
    obtain ⟨ihc, iht, ihf, ihs, ihr⟩ := ih (applyAnalysis s a) hle
    rw [List.foldl_cons]
    have hfc : List.filter (fun x => x.Status = ResultStatus.fail) (a :: rest) =
        if a.Status = ResultStatus.fail then
          a :: List.filter (fun x => x.Status = ResultStatus.fail) rest
        else List.filter (fun x => x.Status = ResultStatus.fail) rest := by
      by_cases hf : a.Status = ResultStatus.fail <;> simp [List.filter_cons, hf]
    refine ⟨?_, ?_, ?_, ?_, ?_⟩
    · rw [ihc, applyAnalysis_Category]
    · rw [iht, applyAnalysis_TotalNodes, List.length_cons]
      omega
    · rw [ihf, applyAnalysis_FailingNodes, hfc]
      by_cases hf : a.Status = ResultStatus.fail
      · simp only [if_pos hf, List.length_cons]
        omega
      · simp only [if_neg hf]
        omega
    · rw [ihs, applyAnalysis_Status]
      simp only [List.any_cons]
      by_cases hf : a.Status = ResultStatus.fail
      · simp [hf, ite_self]
      · simp [hf]
    · rw [ihr, applyAnalysis_Reasons, hfc]
      by_cases hf : a.Status = ResultStatus.fail
      · rw [if_pos hf, List.map_cons]
        by_cases hre : a.Reason = ""
        · have hn : ¬ (a.Status = ResultStatus.fail ∧ a.Reason ≠ "" ∧
              s.Reasons.length < 5) := by simp [hre]
          rw [if_neg hn]
          simp [List.filter_cons, hre]
        · by_cases h5 : s.Reasons.length < 5
          · have hy : a.Status = ResultStatus.fail ∧ a.Reason ≠ "" ∧
                s.Reasons.length < 5 := ⟨hf, hre, h5⟩
            rw [if_pos hy]
            simp [List.filter_cons, hre, List.append_assoc]
          · have hn : ¬ (a.Status = ResultStatus.fail ∧ a.Reason ≠ "" ∧
                s.Reasons.length < 5) := fun hx => h5 hx.2.2
            have hlen : s.Reasons.length = 5 := by omega
            rw [if_neg hn]
            have hfr : List.filter (fun x => x ≠ "")
                (a.Reason :: ((rest.filter (fun x => x.Status = ResultStatus.fail)).map
                  (fun x => x.Reason))) =
                a.Reason :: (((rest.filter (fun x => x.Status = ResultStatus.fail)).map
                  (fun x => x.Reason)).filter (fun x => x ≠ "")) := by
              simp [List.filter_cons, hre]
            rw [hfr, List.take_append_eq_append_take, List.take_append_eq_append_take, hlen]
            simp [List.take_of_length_le (le_of_eq hlen)]
      · have hn : ¬ (a.Status = ResultStatus.fail ∧ a.Reason ≠ "" ∧
            s.Reasons.length < 5) := fun hx => hf hx.1
        rw [if_neg hn, if_neg hf]

end RS

theorem RS.lookupSummary_summarize (root : RS.NodeResult) (c : String) :
    RS.lookupSummary (RS.summarizeCategories root) c =
      (if (RS.categoryContribs root c).isEmpty then none
       else some ((RS.categoryContribs root c).foldl RS.applyAnalysis
         (RS.freshSummary c))) := by
  rw [RS.summarizeCategories, RS.lookupSummary_foldl]
  rfl

/-- C9: every category summary of `summarizeCategories` counts exactly the
nodes contributing to that category in the pre-order walk, counts its failing
ones, has aggregate status fail exactly when some contributing bucket failed,
and retains the first-encountered (non-empty) failure reasons of the walk,
capped at 5; a summary exists for a category exactly when some node
contributes to it. -/
theorem C9_category_summaries (root : RS.NodeResult) (c : String) :
    (RS.lookupSummary (RS.summarizeCategories root) c = none ↔
      RS.categoryContribs root c = []) ∧
    (∀ s, RS.lookupSummary (RS.summarizeCategories root) c = some s →
      s.Category = c ∧
      s.TotalNodes = (RS.categoryContribs root c).length ∧
      s.FailingNodes = ((RS.categoryContribs root c).filter
          (fun a => a.Status = ResultStatus.fail)).length ∧
      (s.Status = ResultStatus.fail ↔
        ∃ a ∈ RS.categoryContribs root c, a.Status = ResultStatus.fail) ∧
      s.Reasons = ((((RS.categoryContribs root c).filter
          (fun a => a.Status = ResultStatus.fail)).map (fun a => a.Reason)).filter
          (fun x => x ≠ "")).take 5) := by
  have hkey := RS.lookupSummary_summarize root c
  constructor
  · rw [hkey]
    by_cases he : (RS.categoryContribs root c).isEmpty = true
    · simp only [he, if_true, ite_true]
      simp [List.isEmpty_iff.mp he]
    · simp only [he, if_false, ite_false]
      constructor
      · intro h
        exact Option.noConfusion h
      · intro h
        exact absurd (by simp [h]) he
  · intro s hs
    rw [hkey] at hs
    by_cases he : (RS.categoryContribs root c).isEmpty = true
    · rw [if_pos he] at hs
      exact Option.noConfusion hs
    · rw [if_neg he] at hs
      have hsv := Option.some.inj hs
      obtain ⟨hc1, ht, hf, hst, hr⟩ :=
        RS.foldl_applyAnalysis (RS.categoryContribs root c) (RS.freshSummary c)
          (by simp [RS.freshSummary])
      refine ⟨?_, ?_, ?_, ?_, ?_⟩
      · rw [← hsv, hc1]
        rfl
      · rw [← hsv, ht]
        simp [RS.freshSummary]
      · rw [← hsv, hf]
        simp [RS.freshSummary]
      · rw [← hsv, hst]
        by_cases hany :
            ((RS.categoryContribs root c).any (fun a => a.Status = ResultStatus.fail)) = true
        · rw [if_pos hany]
          constructor
          · intro _
            simpa using List.any_eq_true.mp hany
          · intro _
            rfl
        · rw [if_neg hany]
          simp only [RS.freshSummary]
          constructor
          · intro h
            exact absurd h (by simp)
          · intro h
            exfalso
            apply hany
            rw [List.any_eq_true]
            obtain ⟨a, ha, hfa⟩ := h
            exact ⟨a, ha, by simpa using hfa⟩
      · rw [← hsv, hr]
        simp [RS.freshSummary]

theorem C9_witness :
    c9summary.Category = "iab.analysis" ∧
    c9summary.TotalNodes = (RS.categoryContribs c9root "iab.analysis").length ∧
    c9summary.FailingNodes = ((RS.categoryContribs c9root "iab.analysis").filter
        (fun a => a.Status = ResultStatus.fail)).length ∧
    (c9summary.Status = ResultStatus.fail ↔
      ∃ a ∈ RS.categoryContribs c9root "iab.analysis", a.Status = ResultStatus.fail) ∧
    c9summary.Reasons = ((((RS.categoryContribs c9root "iab.analysis").filter
        (fun a => a.Status = ResultStatus.fail)).map (fun a => a.Reason)).filter
        (fun x => x ≠ "")).take 5 :=
  (C9_category_summaries c9root "iab.analysis").2 c9summary rfl
